import Mathlib

/-!
Verification of the Crossword-Forge grid editor and suggestion coordinator.

The definitions below are a shallow embedding of the TypeScript source in
`frontend/src/components/GridEditor/GridEditor.tsx` and
`frontend/src/components/GridEditor/WordSuggestions.tsx`.  A grid is a total
function from (row, col) to cells; the program only ever reads and writes
indices below `GRID_SIZE = 15`.  A cell's `letter` field is a single letter
or the empty string in the source; it is embedded as `Option Char`, `none`
standing for the empty string.
-/

set_option maxHeartbeats 1000000

/-- Embedding of the `GridCell` record: `{ isBlack: boolean; letter: string }`,
with the single-letter-or-empty `letter` represented as `Option Char`. -/
structure GridCell where
  isBlack : Bool
  letter : Option Char
deriving DecidableEq, Repr

/-- A grid is indexed by row and column; the program touches only indices
below `GRID_SIZE`. -/
def Grid : Type := Nat → Nat → GridCell

/-- The constant `GRID_SIZE = 15` from GridEditor.tsx. -/
def GRID_SIZE : Nat := 15

/-- Embedding of `createEmptyGrid`: every cell white and blank. -/
def createEmptyGrid : Grid := fun _ _ => { isBlack := false, letter := none }

/-- The two slot directions. -/
inductive Direction where
  | across
  | down
deriving DecidableEq, Repr

/-- Embedding of the `NumberedCell` record. -/
structure NumberedCell where
  row : Nat
  col : Nat
  number : Nat
deriving DecidableEq, Repr

/-- Embedding of the `WordEntry` record. -/
structure WordEntry where
  number : Nat
  word : String
  row : Nat
  col : Nat
  direction : Direction
deriving DecidableEq, Repr

/-- Embedding of `getCrossingScoreClass` from WordSuggestions.tsx, with
`undefined` scores embedded as `none`. -/
def getCrossingScoreClass : Option Nat → String
  | none => ""
  | some score =>
    if score = 0 then "crossing-danger"
    else if score ≤ 4 then "crossing-danger"
    else if score ≤ 19 then "crossing-tight"
    else if score ≤ 99 then "crossing-okay"
    else "crossing-good"

/-- Embedding of `getCrossingScoreLabel` from WordSuggestions.tsx. -/
def getCrossingScoreLabel : Option Nat → String
  | none => ""
  | some score =>
    if 99999 ≤ score then "unconstrained"
    else toString score ++ " crossings"

/-- Embedding of the score cell rendered by `WordSuggestions` (line 241):
`suggestion.crossing_score >= 99999 ? '∞' : suggestion.crossing_score`. -/
def crossingScoreDisplay (score : Nat) : String :=
  if 99999 ≤ score then "∞" else toString score

/-- Embedding of the `isUnfillable` flag computed per suggestion
(line 217): `suggestion.crossing_score === 0`. -/
def isUnfillable (crossingScore : Option Nat) : Bool :=
  crossingScore == some 0

/-- State of the `WordSuggestions` component that `loadSuggestions` touches:
the request counter ref and the pieces of displayed state. -/
structure CoordState where
  requestId : Nat
  suggestions : List Nat
  error : Option String
  isLoading : Bool
  isLoadingCrossings : Bool
deriving DecidableEq, Repr

/-- Embedding of the synchronous head of `loadSuggestions`:
`const currentRequestId = ++requestIdRef.current; setIsLoading(true);
setError(null);`.  Returns the identifier captured by the closure together
with the updated state. -/
def startRequest (s : CoordState) : Nat × CoordState :=
  let newId := s.requestId + 1
  (newId, { s with requestId := newId, isLoading := true, error := none })

/-- Embedding of the continuation run when the basic suggestion query
resolves: `if (currentRequestId !== requestIdRef.current) return;
setSuggestions(results); setIsLoading(false);`. -/
def applyBasicResult (s : CoordState) (reqId : Nat) (results : List Nat) : CoordState :=
  if reqId ≠ s.requestId then s
  else { s with suggestions := results, isLoading := false }

/-- Embedding of the continuation run when the crossing-refinement query
resolves: the staleness check at line 89 followed by
`setSuggestions(crossingResults.suggestions)` and the guarded `finally`
clearing `isLoadingCrossings`. -/
def applyCrossingResult (s : CoordState) (reqId : Nat) (results : List Nat) : CoordState :=
  if reqId ≠ s.requestId then s
  else { s with suggestions := results, isLoadingCrossings := false }

/-- Embedding of the outer `catch` of `loadSuggestions`: the error state is
set, the suggestions cleared and the spinner stopped only when the request
identifier is still current. -/
def applyFailure (s : CoordState) (reqId : Nat) : CoordState :=
  if reqId = s.requestId then
    { s with error := some "Could not load suggestions", suggestions := [], isLoading := false }
  else s

/-- Helper: a string obtained by appending " crossings" is never the string
"unconstrained". -/
theorem append_crossings_ne (s : String) : s ++ " crossings" ≠ "unconstrained" := by
  intro h
  have hd : s.data ++ " crossings".data = "unconstrained".data := by
    have := congrArg String.data h
    simpa using this
  have hsuf : " crossings".data <:+ "unconstrained".data := ⟨s.data, hd⟩
  have : ¬ (" crossings".data <:+ "unconstrained".data) := by decide
  exact this hsuf

/-- Helper: the danger band of `getCrossingScoreClass`. -/
theorem class_danger {s : Nat} (h : s ≤ 4) :
    getCrossingScoreClass (some s) = "crossing-danger" := by
  simp only [getCrossingScoreClass]
  rcases Nat.eq_zero_or_pos s with h0 | h0
  · rw [if_pos h0]
  · rw [if_neg (by omega), if_pos h]

/-- Helper: the tight band of `getCrossingScoreClass`. -/
theorem class_tight {s : Nat} (h5 : 5 ≤ s) (h19 : s ≤ 19) :
    getCrossingScoreClass (some s) = "crossing-tight" := by
  simp only [getCrossingScoreClass]
  rw [if_neg (by omega), if_neg (by omega), if_pos h19]

/-- Helper: the okay band of `getCrossingScoreClass`. -/
theorem class_okay {s : Nat} (h20 : 20 ≤ s) (h99 : s ≤ 99) :
    getCrossingScoreClass (some s) = "crossing-okay" := by
  simp only [getCrossingScoreClass]
  rw [if_neg (by omega), if_neg (by omega), if_neg (by omega), if_pos h99]

/-- Helper: the good band of `getCrossingScoreClass`. -/
theorem class_good {s : Nat} (h : 100 ≤ s) :
    getCrossingScoreClass (some s) = "crossing-good" := by
  simp only [getCrossingScoreClass]
  rw [if_neg (by omega), if_neg (by omega), if_neg (by omega), if_neg (by omega)]

/-- Helper: labels at or above the 99999 sentinel read "unconstrained". -/
theorem label_ge_sentinel {s : Nat} (h : 99999 ≤ s) :
    getCrossingScoreLabel (some s) = "unconstrained" := by
  simp only [getCrossingScoreLabel]
  rw [if_pos h]

/-- Helper: labels below the 99999 sentinel read as a numeric count. -/
theorem label_lt_sentinel {s : Nat} (h : s < 99999) :
    getCrossingScoreLabel (some s) = toString s ++ " crossings" := by
  simp only [getCrossingScoreLabel]
  rw [if_neg (by omega)]

/-- Helper: scores at or above the 99999 sentinel display as "∞". -/
theorem display_ge_sentinel {s : Nat} (h : 99999 ≤ s) :
    crossingScoreDisplay s = "∞" := by
  unfold crossingScoreDisplay
  rw [if_pos h]

/-- Helper: scores below the 99999 sentinel display as the number itself. -/
theorem display_lt_sentinel {s : Nat} (h : s < 99999) :
    crossingScoreDisplay s = toString s := by
  unfold crossingScoreDisplay
  rw [if_neg (by omega)]

/-- C3: for every numeric crossing score `s`, the severity class is
danger when `s = 0`, danger for `1 ≤ s ≤ 4`, tight for `5 ≤ s ≤ 19`,
okay for `20 ≤ s ≤ 99`, and good for `s ≥ 100`; the unconstrained value
99999 in particular is classified good. -/
theorem crossing_score_classification (s : Nat) :
    (s = 0 → getCrossingScoreClass (some s) = "crossing-danger")
    ∧ (1 ≤ s → s ≤ 4 → getCrossingScoreClass (some s) = "crossing-danger")
    ∧ (5 ≤ s → s ≤ 19 → getCrossingScoreClass (some s) = "crossing-tight")
    ∧ (20 ≤ s → s ≤ 99 → getCrossingScoreClass (some s) = "crossing-okay")
    ∧ (100 ≤ s → getCrossingScoreClass (some s) = "crossing-good")
    ∧ getCrossingScoreClass (some 99999) = "crossing-good" :=
  ⟨fun h => class_danger (by omega),
   fun _ h => class_danger h,
   fun h5 h19 => class_tight h5 h19,
   fun h20 h99 => class_okay h20 h99,
   fun h => class_good h,
   class_good (by omega)⟩

/-- Witness for `crossing_score_classification` at the concrete scores
0, 3, 10, 50 and 150. -/
theorem crossing_score_classification_witness :
    getCrossingScoreClass (some 0) = "crossing-danger"
    ∧ getCrossingScoreClass (some 3) = "crossing-danger"
    ∧ getCrossingScoreClass (some 10) = "crossing-tight"
    ∧ getCrossingScoreClass (some 50) = "crossing-okay"
    ∧ getCrossingScoreClass (some 150) = "crossing-good" :=
  ⟨(crossing_score_classification 0).1 rfl,
   (crossing_score_classification 3).2.1 (by omega) (by omega),
   (crossing_score_classification 10).2.2.1 (by omega) (by omega),
   (crossing_score_classification 50).2.2.2.1 (by omega) (by omega),
   (crossing_score_classification 150).2.2.2.2.1 (by omega)⟩

/-- C4 counterexample: the unconstrained sentinel is the in-band integer
99999, and ordinary numeric counts are conflated with it: the count 150 is
classified identically to the sentinel, the count 100000 is labeled and
displayed identically to the sentinel. -/
theorem unconstrained_sentinel_conflated :
    getCrossingScoreClass (some 150) = getCrossingScoreClass (some 99999)
    ∧ getCrossingScoreLabel (some 100000) = getCrossingScoreLabel (some 99999)
    ∧ getCrossingScoreLabel (some 99999) = "unconstrained"
    ∧ crossingScoreDisplay 100000 = crossingScoreDisplay 99999
    ∧ crossingScoreDisplay 99999 = "∞" := by
  refine ⟨?_, ?_, label_ge_sentinel (by omega), ?_, display_ge_sentinel (by omega)⟩
  · rw [class_good (by omega), class_good (by omega)]
  · rw [label_ge_sentinel (by omega), label_ge_sentinel (by omega)]
  · rw [display_ge_sentinel (by omega), display_ge_sentinel (by omega)]

/-- C4 amended: the sentinel is the in-band value 99999; every score below
99999 is labeled as a numeric crossing count and never as "unconstrained",
every score at or above 99999 is labeled "unconstrained" and displayed "∞",
and a numeric 0 in particular is labeled "0 crossings", displayed "0" and
classified danger, never like the sentinel. -/
theorem unconstrained_sentinel_amended :
    (∀ s : Nat, s < 99999 → getCrossingScoreLabel (some s) ≠ "unconstrained")
    ∧ (∀ s : Nat, 99999 ≤ s →
        getCrossingScoreLabel (some s) = "unconstrained" ∧ crossingScoreDisplay s = "∞")
    ∧ getCrossingScoreLabel (some 0) = "0 crossings"
    ∧ crossingScoreDisplay 0 = "0"
    ∧ getCrossingScoreClass (some 0) = "crossing-danger"
    ∧ getCrossingScoreClass (some 99999) = "crossing-good" := by
  refine ⟨?_, ?_, ?_, ?_, class_danger (by omega), class_good (by omega)⟩
  · intro s hs
    rw [label_lt_sentinel hs]
    exact append_crossings_ne (toString s)
  · intro s hs
    exact ⟨label_ge_sentinel hs, display_ge_sentinel hs⟩
  · rw [label_lt_sentinel (by omega)]
    decide
  · rw [display_lt_sentinel (by omega)]
    decide

/-- Witness for `unconstrained_sentinel_amended` at the scores 7 and 99999. -/
theorem unconstrained_sentinel_amended_witness :
    getCrossingScoreLabel (some 7) ≠ "unconstrained"
    ∧ getCrossingScoreLabel (some 99999) = "unconstrained" :=
  ⟨unconstrained_sentinel_amended.1 7 (by omega),
   (unconstrained_sentinel_amended.2.1 99999 (by omega)).1⟩

/-- C6: a suggestion is marked unfillable exactly when its crossing score is
the numeric value 0; the unconstrained sentinel 99999 and an absent score
are not marked unfillable. -/
theorem unfillable_iff_zero :
    (∀ cs : Option Nat, isUnfillable cs = true ↔ cs = some 0)
    ∧ isUnfillable (some 99999) = false
    ∧ isUnfillable none = false := by
  refine ⟨?_, rfl, rfl⟩
  intro cs
  cases cs with
  | none => simp [isUnfillable]
  | some n => simp [isUnfillable]

/-- Witness for `unfillable_iff_zero` applying the equivalence at the
concrete score 0. -/
theorem unfillable_iff_zero_witness : isUnfillable (some 0) = true :=
  (unfillable_iff_zero.1 (some 0)).mpr rfl

/-- C5: request identifiers increase strictly at every issued request, and a
completed result (basic or crossing-refined) or failure whose identifier is
no longer the current one leaves the whole displayed state unchanged: the
stale result is discarded and no error state is set for it. -/
theorem request_staleness_protocol :
    (∀ s : CoordState,
      s.requestId < (startRequest s).2.requestId
      ∧ (startRequest s).1 = (startRequest s).2.requestId)
    ∧ (∀ (s : CoordState) (id : Nat) (results : List Nat),
        id ≠ s.requestId → applyBasicResult s id results = s)
    ∧ (∀ (s : CoordState) (id : Nat) (results : List Nat),
        id ≠ s.requestId → applyCrossingResult s id results = s)
    ∧ (∀ (s : CoordState) (id : Nat),
        id ≠ s.requestId → applyFailure s id = s) := by
  refine ⟨fun s => ⟨Nat.lt_succ_self _, rfl⟩, ?_, ?_, ?_⟩
  · intro s id results h
    simp [applyBasicResult, h]
  · intro s id results h
    simp [applyCrossingResult, h]
  · intro s id h
    simp [applyFailure, h]

/-- A concrete coordinator state used by the staleness witness. -/
def sampleCoordState : CoordState := ⟨2, [5], none, true, false⟩

/-- Witness for `request_staleness_protocol`: a concrete stale completion
(identifier 1 against current identifier 2) is discarded without touching
the state. -/
theorem request_staleness_protocol_witness :
    applyBasicResult sampleCoordState 1 [9] = sampleCoordState :=
  request_staleness_protocol.2.1 sampleCoordState 1 [9] (by decide)

/-- Embedding of the `startsAcross` condition of `calculateNumberedCells`
(GridEditor.tsx lines 28-31). -/
def startsAcross (g : Grid) (row col : Nat) : Bool :=
  (col == 0 || (g row (col - 1)).isBlack)
    && decide (col < GRID_SIZE - 1)
    && !(g row (col + 1)).isBlack

/-- Embedding of the `startsDown` condition of `calculateNumberedCells`
(GridEditor.tsx lines 33-36). -/
def startsDown (g : Grid) (row col : Nat) : Bool :=
  (row == 0 || (g (row - 1) col).isBlack)
    && decide (row < GRID_SIZE - 1)
    && !(g (row + 1) col).isBlack

/-- Row-major list of the coordinates scanned by the nested loops of
`calculateNumberedCells`. -/
def rowMajorCells : List (Nat × Nat) :=
  (List.range GRID_SIZE).flatMap (fun row =>
    (List.range GRID_SIZE).map (fun col => (row, col)))

/-- Embedding of the loop body of `calculateNumberedCells`: walk the cells
carrying `currentNumber`, skip black cells, and number the cells that start
an across or a down slot. -/
def numberedAux (g : Grid) : List (Nat × Nat) → Nat → List NumberedCell
  | [], _ => []
  | (row, col) :: rest, n =>
    if (g row col).isBlack then numberedAux g rest n
    else if startsAcross g row col || startsDown g row col then
      { row := row, col := col, number := n } :: numberedAux g rest (n + 1)
    else numberedAux g rest n

/-- Embedding of `calculateNumberedCells` (GridEditor.tsx lines 20-46). -/
def calculateNumberedCells (g : Grid) : List NumberedCell :=
  numberedAux g rowMajorCells 1

/-- Embedding of `word += grid[row][col].letter || '_'`: the cell's letter
when filled, the wildcard when blank. -/
def letterOrWildcard (cell : GridCell) : Char :=
  match cell.letter with
  | none => '_'
  | some ch => ch

/-- Embedding of the inner `while` of the across loop of `extractWords`
(lines 70-73): starting at `col`, take letters while the cell is in range
and not black, returning the collected letters and the column where the
scan stopped.  The fuel argument bounds the iteration count; `extractWords`
passes enough for the loop to run to its real exit condition. -/
def takeRunAcross (g : Grid) (row : Nat) : Nat → Nat → List Char × Nat
  | 0, col => ([], col)
  | fuel + 1, col =>
    if col < GRID_SIZE && !(g row col).isBlack then
      let p := takeRunAcross g row fuel (col + 1)
      (letterOrWildcard (g row col) :: p.1, p.2)
    else ([], col)

/-- Embedding of the outer `while (col < GRID_SIZE)` of the across loop of
`extractWords` (lines 61-81): skip black cells, collect each run together
with its start column. -/
def scanRowAcross (g : Grid) (row : Nat) : Nat → Nat → List (Nat × List Char)
  | 0, _ => []
  | fuel + 1, col =>
    if col < GRID_SIZE then
      if (g row col).isBlack then scanRowAcross g row fuel (col + 1)
      else
        let p := takeRunAcross g row (GRID_SIZE - col) col
        (col, p.1) :: scanRowAcross g row fuel p.2
    else []

/-- Embedding of the inner `while` of the down loop of `extractWords`
(lines 94-97). -/
def takeRunDown (g : Grid) (col : Nat) : Nat → Nat → List Char × Nat
  | 0, row => ([], row)
  | fuel + 1, row =>
    if row < GRID_SIZE && !(g row col).isBlack then
      let p := takeRunDown g col fuel (row + 1)
      (letterOrWildcard (g row col) :: p.1, p.2)
    else ([], row)

/-- Embedding of the outer `while (row < GRID_SIZE)` of the down loop of
`extractWords` (lines 85-105). -/
def scanColDown (g : Grid) (col : Nat) : Nat → Nat → List (Nat × List Char)
  | 0, _ => []
  | fuel + 1, row =>
    if row < GRID_SIZE then
      if (g row col).isBlack then scanColDown g col fuel (row + 1)
      else
        let p := takeRunDown g col (GRID_SIZE - row) row
        (row, p.1) :: scanColDown g col fuel p.2
    else []

/-- Embedding of the `numberMap` built by `extractWords` (lines 54-58) and
its `get`: the `forEach` writes entries in order so a later entry with the
same key wins, hence the lookup searches the reversed list. -/
def numberLookup (ncs : List NumberedCell) (row col : Nat) : Option Nat :=
  (ncs.reverse.find? (fun nc => nc.row == row && nc.col == col)).map
    (fun nc => nc.number)

/-- Embedding of the across half of `extractWords` (lines 60-82): one pass
per row; a run is pushed when its word has length at least 2 and the
`numberMap` lookup yields a truthy (nonzero) number. -/
def acrossEntries (g : Grid) (ncs : List NumberedCell) : List WordEntry :=
  (List.range GRID_SIZE).flatMap (fun row =>
    (scanRowAcross g row GRID_SIZE 0).filterMap (fun p =>
      if 2 ≤ p.2.length then
        match numberLookup ncs row p.1 with
        | some n =>
          if n ≠ 0 then
            some { number := n, word := String.mk p.2, row := row, col := p.1,
                   direction := Direction.across }
          else none
        | none => none
      else none))

/-- Embedding of the down half of `extractWords` (lines 84-106). -/
def downEntries (g : Grid) (ncs : List NumberedCell) : List WordEntry :=
  (List.range GRID_SIZE).flatMap (fun col =>
    (scanColDown g col GRID_SIZE 0).filterMap (fun p =>
      if 2 ≤ p.2.length then
        match numberLookup ncs p.1 col with
        | some n =>
          if n ≠ 0 then
            some { number := n, word := String.mk p.2, row := p.1, col := col,
                   direction := Direction.down }
          else none
        | none => none
      else none))

/-- Embedding of `extractWords` (GridEditor.tsx lines 48-109), returning the
across and down entry lists. -/
def extractWords (g : Grid) (ncs : List NumberedCell) :
    List WordEntry × List WordEntry :=
  (acrossEntries g ncs, downEntries g ncs)

/-- Functional update of a single grid cell, the effect of one assignment
into the freshly copied `newGrid`. -/
def setCell (g : Grid) (r0 c0 : Nat) (cell : GridCell) : Grid :=
  fun r c => if r = r0 ∧ c = c0 then cell else g r c

/-- Embedding of `toggleBlackSquare` (GridEditor.tsx lines 223-240): negate
the clicked cell's blackness, clear its letter, and when symmetry is
enabled do the same write to the 180-degree mirror cell. -/
def toggleBlackSquare (g : Grid) (row col : Nat) (symmetryEnabled : Bool) : Grid :=
  let newIsBlack := !(g row col).isBlack
  let g1 := setCell g row col { isBlack := newIsBlack, letter := none }
  if symmetryEnabled then
    setCell g1 (GRID_SIZE - 1 - row) (GRID_SIZE - 1 - col)
      { isBlack := newIsBlack, letter := none }
  else g1

/-- Write of a single letter into a cell, the effect of
`newGrid[r][c].letter = word[i]`: only the letter changes. -/
def setLetter (g : Grid) (r0 c0 : Nat) (ch : Option Char) : Grid :=
  fun r c =>
    if r = r0 ∧ c = c0 then { isBlack := (g r0 c0).isBlack, letter := ch }
    else g r c

/-- Embedding of the across branch of `handleFillSuggestedWord`
(lines 414-420): write each letter at `col + i` guarded by
`col < GRID_SIZE`. -/
def fillWordAcross : Grid → Nat → Nat → List Char → Grid
  | g, _, _, [] => g
  | g, row, col, ch :: rest =>
    let g' := if col < GRID_SIZE then setLetter g row col (some ch) else g
    fillWordAcross g' row (col + 1) rest

/-- Embedding of the down branch of `handleFillSuggestedWord`
(lines 421-428). -/
def fillWordDown : Grid → Nat → Nat → List Char → Grid
  | g, _, _, [] => g
  | g, row, col, ch :: rest =>
    let g' := if row < GRID_SIZE then setLetter g row col (some ch) else g
    fillWordDown g' (row + 1) col rest

/-- Embedding of `handleFillSuggestedWord` (GridEditor.tsx lines 408-433)
for a selected entry `cw`. -/
def handleFillSuggestedWord (g : Grid) (cw : WordEntry) (w : String) : Grid :=
  match cw.direction with
  | Direction.across => fillWordAcross g cw.row cw.col w.data
  | Direction.down => fillWordDown g cw.row cw.col w.data

/-- Helper: pointwise description of `toggleBlackSquare`: the mirror write
wins (it happens last), then the clicked-cell write, then the old grid. -/
theorem toggleBlackSquare_apply (g : Grid) (row col : Nat) (sym : Bool) (r c : Nat) :
    toggleBlackSquare g row col sym r c =
      if sym = true ∧ r = GRID_SIZE - 1 - row ∧ c = GRID_SIZE - 1 - col then
        { isBlack := !(g row col).isBlack, letter := none }
      else if r = row ∧ c = col then
        { isBlack := !(g row col).isBlack, letter := none }
      else g r c := by
  cases sym with
  | false =>
    show setCell g row col _ r c = _
    simp only [setCell, Bool.false_eq_true, false_and, if_false]
  | true =>
    show setCell (setCell g row col _) _ _ _ r c = _
    simp only [setCell, true_and]

/-- C9: with symmetry enabled, `toggleBlackSquare` writes the negation of
the clicked cell's blackness, with an emptied letter, to the clicked cell
and to its 180-degree mirror, and leaves every other cell unchanged; with
symmetry disabled only the clicked cell changes; and the write preserves
180-degree rotational symmetry of the black squares. -/
theorem toggle_black_square_frame (g : Grid) (row col : Nat)
    (hrow : row < GRID_SIZE) (hcol : col < GRID_SIZE) :
    toggleBlackSquare g row col true row col
        = { isBlack := !(g row col).isBlack, letter := none }
    ∧ toggleBlackSquare g row col true (GRID_SIZE - 1 - row) (GRID_SIZE - 1 - col)
        = { isBlack := !(g row col).isBlack, letter := none }
    ∧ (∀ r c, ¬(r = row ∧ c = col) →
        ¬(r = GRID_SIZE - 1 - row ∧ c = GRID_SIZE - 1 - col) →
        toggleBlackSquare g row col true r c = g r c)
    ∧ toggleBlackSquare g row col false row col
        = { isBlack := !(g row col).isBlack, letter := none }
    ∧ (∀ r c, ¬(r = row ∧ c = col) → toggleBlackSquare g row col false r c = g r c)
    ∧ ((∀ r c, r < GRID_SIZE → c < GRID_SIZE →
          (g r c).isBlack = (g (GRID_SIZE - 1 - r) (GRID_SIZE - 1 - c)).isBlack) →
        ∀ r c, r < GRID_SIZE → c < GRID_SIZE →
          (toggleBlackSquare g row col true r c).isBlack
            = (toggleBlackSquare g row col true
                (GRID_SIZE - 1 - r) (GRID_SIZE - 1 - c)).isBlack) := by
  refine ⟨?_, ?_, ?_, ?_, ?_, ?_⟩
  · rw [toggleBlackSquare_apply]
    split_ifs with h1 h2
    · rfl
    · rfl
    · exact absurd ⟨rfl, rfl⟩ h2
  · simp [toggleBlackSquare_apply]
  · intro r c h1 h2
    rw [toggleBlackSquare_apply]
    rw [if_neg (fun hx => h2 ⟨hx.2.1, hx.2.2⟩), if_neg h1]
  · simp [toggleBlackSquare_apply]
  · intro r c h1
    rw [toggleBlackSquare_apply]
    rw [if_neg (by simp), if_neg h1]
  · intro hsym r c hr hc
    rw [toggleBlackSquare_apply, toggleBlackSquare_apply]
    simp only [GRID_SIZE, true_and] at hsym hr hc hrow hcol ⊢
    split_ifs <;>
      first
        | rfl
        | (exact hsym r c hr hc)
        | (exfalso; omega)

/-- Witness for `toggle_black_square_frame`: toggling (1, 2) on the empty
grid with symmetry blackens (1, 2) and its mirror (13, 12) and leaves
(0, 0) alone. -/
theorem toggle_black_square_frame_witness :
    toggleBlackSquare createEmptyGrid 1 2 true 1 2
        = { isBlack := true, letter := none }
    ∧ toggleBlackSquare createEmptyGrid 1 2 true (GRID_SIZE - 1 - 1) (GRID_SIZE - 1 - 2)
        = { isBlack := true, letter := none }
    ∧ toggleBlackSquare createEmptyGrid 1 2 true 0 0 = createEmptyGrid 0 0 :=
  ⟨(toggle_black_square_frame createEmptyGrid 1 2 (by decide) (by decide)).1,
   (toggle_black_square_frame createEmptyGrid 1 2 (by decide) (by decide)).2.1,
   (toggle_black_square_frame createEmptyGrid 1 2 (by decide) (by decide)).2.2.1
     0 0 (by decide) (by decide)⟩

/-- Helper: pointwise description of the across fill loop: the letter at
offset `c - col` lands in cell `(row, c)` whenever that column is inside
the grid; nothing else changes, and no cell's blackness changes. -/
theorem fillWordAcross_apply (letters : List Char) :
    ∀ (g : Grid) (row col r c : Nat),
      fillWordAcross g row col letters r c =
        if r = row ∧ col ≤ c ∧ c < col + letters.length ∧ c < GRID_SIZE then
          { isBlack := (g r c).isBlack, letter := letters[c - col]? }
        else g r c := by
  induction letters with
  | nil =>
    intro g row col r c
    show g r c = _
    rw [if_neg (fun hx => by simp at hx; omega)]
  | cons ch rest ih =>
    intro g row col r c
    show fillWordAcross (if col < GRID_SIZE then setLetter g row col (some ch) else g)
      row (col + 1) rest r c = _
    rw [ih]
    by_cases hc15 : col < GRID_SIZE
    · rw [if_pos hc15]
      by_cases hhead : r = row ∧ c = col
      · obtain ⟨h1, h2⟩ := hhead
        rw [if_neg (fun hx => by omega)]
        rw [if_pos ⟨h1, by omega, by simp; omega, by omega⟩]
        simp only [setLetter, h1, h2]
        rw [if_pos ⟨trivial, trivial⟩]
        have h0 : col - col = 0 := by omega
        rw [h0, List.getElem?_cons_zero]
      · have hset : setLetter g row col (some ch) r c = g r c := by
          simp only [setLetter]
          rw [if_neg hhead]
        by_cases hin : r = row ∧ col + 1 ≤ c ∧ c < col + 1 + rest.length ∧ c < GRID_SIZE
        · obtain ⟨h1, h2, h3, h4⟩ := hin
          rw [if_pos ⟨h1, h2, h3, h4⟩]
          rw [if_pos ⟨h1, by omega, by simp; omega, h4⟩]
          rw [hset]
          have : c - col = (c - (col + 1)) + 1 := by omega
          rw [this, List.getElem?_cons_succ]
        · rw [if_neg hin, hset]
          rw [if_neg (fun hx => by
            obtain ⟨h1, h2, h3, h4⟩ := hx
            simp only [List.length_cons] at h3
            exact hin ⟨h1, by omega, by omega, h4⟩)]
    · rw [if_neg hc15]
      rw [if_neg (fun hx => by omega)]
      rw [if_neg (fun hx => by
        obtain ⟨h1, h2, h3, h4⟩ := hx
        omega)]

/-- Helper: pointwise description of the down fill loop, mirror of
`fillWordAcross_apply`. -/
theorem fillWordDown_apply (letters : List Char) :
    ∀ (g : Grid) (row col r c : Nat),
      fillWordDown g row col letters r c =
        if c = col ∧ row ≤ r ∧ r < row + letters.length ∧ r < GRID_SIZE then
          { isBlack := (g r c).isBlack, letter := letters[r - row]? }
        else g r c := by
  induction letters with
  | nil =>
    intro g row col r c
    show g r c = _
    rw [if_neg (fun hx => by simp at hx; omega)]
  | cons ch rest ih =>
    intro g row col r c
    show fillWordDown (if row < GRID_SIZE then setLetter g row col (some ch) else g)
      (row + 1) col rest r c = _
    rw [ih]
    by_cases hr15 : row < GRID_SIZE
    · rw [if_pos hr15]
      by_cases hhead : r = row ∧ c = col
      · obtain ⟨h1, h2⟩ := hhead
        rw [if_neg (fun hx => by omega)]
        rw [if_pos ⟨h2, by omega, by simp; omega, by omega⟩]
        simp only [setLetter, h1, h2]
        rw [if_pos ⟨trivial, trivial⟩]
        have h0 : row - row = 0 := by omega
        rw [h0, List.getElem?_cons_zero]
      · have hset : setLetter g row col (some ch) r c = g r c := by
          simp only [setLetter]
          rw [if_neg hhead]
        by_cases hin : c = col ∧ row + 1 ≤ r ∧ r < row + 1 + rest.length ∧ r < GRID_SIZE
        · obtain ⟨h1, h2, h3, h4⟩ := hin
          rw [if_pos ⟨h1, h2, h3, h4⟩]
          rw [if_pos ⟨h1, by omega, by simp; omega, h4⟩]
          rw [hset]
          have : r - row = (r - (row + 1)) + 1 := by omega
          rw [this, List.getElem?_cons_succ]
        · rw [if_neg hin, hset]
          rw [if_neg (fun hx => by
            obtain ⟨h1, h2, h3, h4⟩ := hx
            simp only [List.length_cons] at h3
            have hne : ¬(r = row ∧ c = col) := hhead
            exact hin ⟨h1, by omega, by omega, h4⟩)]
    · rw [if_neg hr15]
      rw [if_neg (fun hx => by omega)]
      rw [if_neg (fun hx => by
        obtain ⟨h1, h2, h3, h4⟩ := hx
        omega)]

/-- A grid whose only black cell is (0, 12), so row 0 ends with the
two-cell across slot at columns 13-14. -/
def edgeSlotGrid : Grid := fun r c =>
  if r = 0 ∧ c = 12 then { isBlack := true, letter := none }
  else { isBlack := false, letter := none }

/-- The two-cell across slot of `edgeSlotGrid` starting at (0, 13), as the
entry `handleFillSuggestedWord` receives it. -/
def mismatchedEntry : WordEntry :=
  { number := 5, word := "__", row := 0, col := 13, direction := Direction.across }

/-- Boolean check that two grids agree on every in-range cell outside the
listed exceptions. -/
def gridEqExcept (g1 g2 : Grid) (ex : List (Nat × Nat)) : Bool :=
  (List.range GRID_SIZE).all fun r =>
    (List.range GRID_SIZE).all fun c =>
      decide ((r, c) ∈ ex) || decide (g1 r c = g2 r c)

/-- C7 counterexample: filling the length-2 slot at (0, 13) of
`edgeSlotGrid` with the length-3 word "ABC" does not fail: it writes 'A'
and 'B' into the slot, silently drops the 'C' that would land outside the
grid, and changes nothing else.  The embedded operation is total (the
source raises no error of any kind), so no `MalformedSlotError` is
possible. -/
theorem fill_mismatch_truncates :
    (handleFillSuggestedWord edgeSlotGrid mismatchedEntry "ABC" 0 13).letter = some 'A'
    ∧ (handleFillSuggestedWord edgeSlotGrid mismatchedEntry "ABC" 0 14).letter = some 'B'
    ∧ "ABC".length ≠ mismatchedEntry.word.length
    ∧ gridEqExcept (handleFillSuggestedWord edgeSlotGrid mismatchedEntry "ABC")
        edgeSlotGrid [(0, 13), (0, 14)] = true := by
  refine ⟨rfl, rfl, by decide, by decide⟩

/-- C7 amended: `handleFillSuggestedWord` never fails; it writes letter `i`
of the word into the cell at offset `i` from the slot start whenever that
cell's index is below `GRID_SIZE` — even past the end of the target slot
and into black cells — silently dropping letters that fall outside the
grid, and leaves every other cell and every cell's blackness unchanged. -/
theorem fill_suggested_word_amended (g : Grid) (cw : WordEntry) (w : String) (r c : Nat) :
    handleFillSuggestedWord g cw w r c =
      match cw.direction with
      | Direction.across =>
        if r = cw.row ∧ cw.col ≤ c ∧ c < cw.col + w.data.length ∧ c < GRID_SIZE then
          { isBlack := (g r c).isBlack, letter := w.data[c - cw.col]? }
        else g r c
      | Direction.down =>
        if c = cw.col ∧ cw.row ≤ r ∧ r < cw.row + w.data.length ∧ r < GRID_SIZE then
          { isBlack := (g r c).isBlack, letter := w.data[r - cw.row]? }
        else g r c := by
  cases hd : cw.direction with
  | across =>
    simp only [handleFillSuggestedWord, hd]
    rw [fillWordAcross_apply]
  | down =>
    simp only [handleFillSuggestedWord, hd]
    rw [fillWordDown_apply]

/-- C8: `calculateNumberedCells` and `extractWords` are pure functions of
the grid: equal grids give equal numbered-cell lists and equal across/down
word lists, independent of any other state. -/
theorem extraction_deterministic (g1 g2 : Grid) (h : g1 = g2) :
    calculateNumberedCells g1 = calculateNumberedCells g2
    ∧ extractWords g1 (calculateNumberedCells g1)
        = extractWords g2 (calculateNumberedCells g2) := by
  subst h
  exact ⟨rfl, rfl⟩

/-- Witness for `extraction_deterministic` at the empty grid. -/
theorem extraction_deterministic_witness :
    calculateNumberedCells createEmptyGrid = calculateNumberedCells createEmptyGrid
    ∧ extractWords createEmptyGrid (calculateNumberedCells createEmptyGrid)
        = extractWords createEmptyGrid (calculateNumberedCells createEmptyGrid) :=
  extraction_deterministic createEmptyGrid createEmptyGrid rfl

/-- Formalisation of the claim's slot-start rule, written from the spec's
words: a cell starts a slot iff it is not black, and in at least one
direction it is at the grid edge or preceded by a black cell while the
next cell in that direction exists (index below `GRID_SIZE`) and is not
black. -/
def startsSlotSpec (g : Grid) (row col : Nat) : Bool :=
  !(g row col).isBlack
    && (((col == 0 || (g row (col - 1)).isBlack)
          && decide (col + 1 < GRID_SIZE) && !(g row (col + 1)).isBlack)
        || ((row == 0 || (g (row - 1) col).isBlack)
          && decide (row + 1 < GRID_SIZE) && !(g (row + 1) col).isBlack))

/-- Consecutive numbering of a list of coordinates starting at `n`. -/
def enumFrom (n : Nat) : List (Nat × Nat) → List NumberedCell
  | [] => []
  | p :: rest => { row := p.1, col := p.2, number := n } :: enumFrom (n + 1) rest

/-- Helper: `enumFrom n` applied after the library's positional
`List.enumFrom k` numbering, offset bookkeeping included. -/
theorem enumFrom_eq_lib_enumFrom (l : List (Nat × Nat)) :
    ∀ n k, enumFrom n l
      = (List.enumFrom k l).map
          (fun p => { row := p.2.1, col := p.2.2, number := p.1 + n - k }) := by
  induction l with
  | nil => intro n k; rfl
  | cons a rest ih =>
    intro n k
    show { row := a.1, col := a.2, number := n } :: enumFrom (n + 1) rest = _
    rw [List.enumFrom_cons]
    simp only [List.map_cons]
    congr 1
    · simp only [NumberedCell.mk.injEq]
      exact ⟨trivial, trivial, by omega⟩
    · rw [ih (n + 1) (k + 1)]
      apply List.map_congr_left
      intro p hp
      simp only [NumberedCell.mk.injEq]
      exact ⟨trivial, trivial, by omega⟩

/-- Helper: `enumFrom` is positional numbering offset by `n`. -/
theorem enumFrom_eq_enum (l : List (Nat × Nat)) (n : Nat) :
    enumFrom n l
      = l.enum.map (fun p => { row := p.2.1, col := p.2.2, number := p.1 + n }) := by
  rw [show l.enum = List.enumFrom 0 l from rfl]
  rw [enumFrom_eq_lib_enumFrom l n 0]
  apply List.map_congr_left
  intro p hp
  simp only [NumberedCell.mk.injEq]
  exact ⟨trivial, trivial, by omega⟩

/-- Helper: the code's window condition `col < GRID_SIZE - 1` agrees with
the claim's "the next cell exists". -/
theorem window_eq (col : Nat) :
    decide (col < GRID_SIZE - 1) = decide (col + 1 < GRID_SIZE) := by
  simp only [GRID_SIZE, decide_eq_decide]
  omega

/-- Helper: on a non-black cell the code's `startsAcross || startsDown`
agrees with the spec's slot-start rule. -/
theorem starts_bridge (g : Grid) (row col : Nat)
    (h : (g row col).isBlack = false) :
    (startsAcross g row col || startsDown g row col) = startsSlotSpec g row col := by
  simp only [startsAcross, startsDown, startsSlotSpec, h, window_eq,
    Bool.not_false, Bool.true_and]

/-- Helper: `numberedAux` numbers the spec's slot-start cells consecutively
from its accumulator. -/
theorem numberedAux_eq (g : Grid) (l : List (Nat × Nat)) :
    ∀ n, numberedAux g l n
      = enumFrom n (l.filter (fun p => startsSlotSpec g p.1 p.2)) := by
  induction l with
  | nil => intro n; rfl
  | cons hd rest ih =>
    intro n
    obtain ⟨row, col⟩ := hd
    show (if (g row col).isBlack then numberedAux g rest n
          else if startsAcross g row col || startsDown g row col then
            { row := row, col := col, number := n } :: numberedAux g rest (n + 1)
          else numberedAux g rest n) = _
    simp only [List.filter_cons]
    by_cases hb : (g row col).isBlack
    · rw [if_pos hb]
      have hs : startsSlotSpec g row col = false := by
        simp [startsSlotSpec, hb]
      rw [hs]
      simp only [Bool.false_eq_true, if_false]
      exact ih n
    · rw [if_neg hb]
      have hb' : (g row col).isBlack = false := by
        cases h' : (g row col).isBlack
        · rfl
        · exact absurd h' hb
      rw [starts_bridge g row col hb']
      by_cases hs : startsSlotSpec g row col
      · rw [hs]
        simp only [if_true]
        show { row := row, col := col, number := n } :: numberedAux g rest (n + 1) = _
        rw [ih (n + 1)]
        rfl
      · have hs' : startsSlotSpec g row col = false := by
          cases h' : startsSlotSpec g row col
          · rfl
          · exact absurd h' hs
        rw [hs']
        simp only [Bool.false_eq_true, if_false]
        exact ih n

/-- C1: `calculateNumberedCells` numbers exactly the cells satisfying the
spec's slot-start rule, consecutively from 1 in row-major scan order. -/
theorem calculate_numbered_cells_spec (g : Grid) :
    calculateNumberedCells g
      = ((rowMajorCells.filter (fun p => startsSlotSpec g p.1 p.2)).enum).map
          (fun p => { row := p.2.1, col := p.2.2, number := p.1 + 1 }) := by
  show numberedAux g rowMajorCells 1 = _
  rw [numberedAux_eq, enumFrom_eq_enum]

/-- Helper: splitting a `range'` interval. -/
theorem range'_split (s m n : Nat) :
    List.range' s (m + n) = List.range' s m ++ List.range' (s + m) n := by
  have h := List.range'_append s m n 1
  simp only [Nat.one_mul] at h
  rw [Nat.add_comm m n]
  exact h.symm

/-- Length of the maximal horizontal run of non-black cells starting at
`(row, col)`, written from the claim's words: consecutive non-black cells
until a black cell or the grid edge. -/
def runLenAcross (g : Grid) (row col : Nat) : Nat :=
  ((List.range' col (GRID_SIZE - col)).takeWhile (fun c => !(g row c).isBlack)).length

/-- The letters-or-wildcards of the maximal horizontal run starting at
`(row, col)`. -/
def runWordAcross (g : Grid) (row col : Nat) : List Char :=
  (List.range' col (runLenAcross g row col)).map (fun c => letterOrWildcard (g row c))

/-- A cell starts a maximal horizontal run iff it is an in-range non-black
cell at the left edge or preceded by a black cell. -/
def isRunStartAcross (g : Grid) (row col : Nat) : Bool :=
  decide (col < GRID_SIZE) && !(g row col).isBlack
    && (col == 0 || (g row (col - 1)).isBlack)

/-- Transposed view of a grid, used to transfer horizontal-run lemmas to
vertical runs. -/
def transposeGrid (g : Grid) : Grid := fun r c => g c r

/-- Length of the maximal vertical run of non-black cells starting at
`(row, col)`. -/
def runLenDown (g : Grid) (row col : Nat) : Nat :=
  ((List.range' row (GRID_SIZE - row)).takeWhile (fun r => !(g r col).isBlack)).length

/-- The letters-or-wildcards of the maximal vertical run starting at
`(row, col)`. -/
def runWordDown (g : Grid) (row col : Nat) : List Char :=
  (List.range' row (runLenDown g row col)).map (fun r => letterOrWildcard (g r col))

/-- A cell starts a maximal vertical run iff it is an in-range non-black
cell at the top edge or preceded by a black cell. -/
def isRunStartDown (g : Grid) (row col : Nat) : Bool :=
  decide (row < GRID_SIZE) && !(g row col).isBlack
    && (row == 0 || (g (row - 1) col).isBlack)

/-- The number the grid's numbering assigns to a cell (0 when absent). -/
def numberOf (g : Grid) (row col : Nat) : Nat :=
  (numberLookup (calculateNumberedCells g) row col).getD 0

/-- Helper: vertical run data is horizontal run data of the transpose. -/
theorem down_defs_transpose (g : Grid) (row col : Nat) :
    runLenDown g row col = runLenAcross (transposeGrid g) col row
    ∧ runWordDown g row col = runWordAcross (transposeGrid g) col row
    ∧ isRunStartDown g row col = isRunStartAcross (transposeGrid g) col row :=
  ⟨rfl, rfl, rfl⟩

/-- Helper: past the right edge the horizontal run is empty. -/
theorem runLenAcross_of_ge (g : Grid) (row col : Nat) (h : GRID_SIZE ≤ col) :
    runLenAcross g row col = 0 := by
  unfold runLenAcross
  have : GRID_SIZE - col = 0 := by omega
  rw [this]
  rfl

/-- Helper: a black cell starts no horizontal run. -/
theorem runLenAcross_of_black (g : Grid) (row col : Nat) (hc : col < GRID_SIZE)
    (hb : (g row col).isBlack = true) : runLenAcross g row col = 0 := by
  unfold runLenAcross
  have h : GRID_SIZE - col = (GRID_SIZE - (col + 1)) + 1 := by
    simp only [GRID_SIZE] at hc ⊢
    omega
  rw [h, List.range'_succ, List.takeWhile_cons_of_neg (by simp [hb])]
  rfl

/-- Helper: a non-black cell extends the horizontal run by one. -/
theorem runLenAcross_step (g : Grid) (row col : Nat) (hc : col < GRID_SIZE)
    (hb : (g row col).isBlack = false) :
    runLenAcross g row col = runLenAcross g row (col + 1) + 1 := by
  unfold runLenAcross
  have h : GRID_SIZE - col = (GRID_SIZE - (col + 1)) + 1 := by
    simp only [GRID_SIZE] at hc ⊢
    omega
  rw [h, List.range'_succ, List.takeWhile_cons_of_pos (by simp [hb])]
  simp [Nat.add_comm]

/-- Helper: a horizontal run fits in the remaining row width. -/
theorem runLenAcross_le (g : Grid) (row col : Nat) :
    runLenAcross g row col ≤ GRID_SIZE - col := by
  unfold runLenAcross
  have := (List.takeWhile_prefix (l := List.range' col (GRID_SIZE - col))
    (fun c => !(g row c).isBlack)).length_le
  simpa using this

/-- Helper: a positive horizontal run begins on a non-black in-range cell. -/
theorem runLenAcross_pos (g : Grid) (row col : Nat)
    (h : 0 < runLenAcross g row col) :
    col < GRID_SIZE ∧ (g row col).isBlack = false := by
  by_cases hc : col < GRID_SIZE
  · refine ⟨hc, ?_⟩
    cases hb : (g row col).isBlack
    · rfl
    · rw [runLenAcross_of_black g row col hc hb] at h
      omega
  · rw [runLenAcross_of_ge g row col (by omega)] at h
    omega

/-- Helper: every cell inside a horizontal run is non-black. -/
theorem runLenAcross_inside (g : Grid) (row : Nat) :
    ∀ i col, i < runLenAcross g row col → (g row (col + i)).isBlack = false := by
  intro i
  induction i with
  | zero =>
    intro col h
    exact (runLenAcross_pos g row col (by omega)).2
  | succ j ih =>
    intro col h
    obtain ⟨hc, hb⟩ := runLenAcross_pos g row col (by omega)
    rw [runLenAcross_step g row col hc hb] at h
    have := ih (col + 1) (by omega)
    have harith : col + 1 + j = col + (j + 1) := by omega
    rwa [harith] at this

/-- Helper: a horizontal run ends at the grid edge or at a black cell. -/
theorem runLenAcross_end (g : Grid) (row : Nat) :
    ∀ fuel col, GRID_SIZE - col ≤ fuel →
      GRID_SIZE ≤ col + runLenAcross g row col
      ∨ (g row (col + runLenAcross g row col)).isBlack = true := by
  intro fuel
  induction fuel with
  | zero =>
    intro col h
    rw [runLenAcross_of_ge g row col (by omega)]
    left
    omega
  | succ f ih =>
    intro col h
    by_cases hc : col < GRID_SIZE
    · cases hb : (g row col).isBlack
      · rw [runLenAcross_step g row col hc hb]
        have := ih (col + 1) (by omega)
        have harith : col + (runLenAcross g row (col + 1) + 1)
            = (col + 1) + runLenAcross g row (col + 1) := by omega
        rw [harith]
        exact this
      · rw [runLenAcross_of_black g row col hc hb]
        right
        simpa using hb
    · rw [runLenAcross_of_ge g row col (by omega)]
      left
      omega

/-- Helper: unfolding the maximal-run word one cell at a time. -/
theorem runWordAcross_step (g : Grid) (row col : Nat) (hc : col < GRID_SIZE)
    (hb : (g row col).isBlack = false) :
    runWordAcross g row col
      = letterOrWildcard (g row col) :: runWordAcross g row (col + 1) := by
  unfold runWordAcross
  rw [runLenAcross_step g row col hc hb, List.range'_succ, List.map_cons]

/-- Helper: the inner across loop returns the maximal run's word and stops
at the first index past the run. -/
theorem takeRunAcross_eq (g : Grid) (row : Nat) :
    ∀ fuel col, GRID_SIZE - col ≤ fuel →
      takeRunAcross g row fuel col
        = (runWordAcross g row col, col + runLenAcross g row col) := by
  intro fuel
  induction fuel with
  | zero =>
    intro col h
    have hge : GRID_SIZE ≤ col := by omega
    show ([], col) = _
    unfold runWordAcross
    rw [runLenAcross_of_ge g row col hge]
    rfl
  | succ f ih =>
    intro col h
    by_cases hc : col < GRID_SIZE
    · cases hb : (g row col).isBlack with
      | false =>
        rw [show takeRunAcross g row (f + 1) col
            = (letterOrWildcard (g row col) :: (takeRunAcross g row f (col + 1)).1,
               (takeRunAcross g row f (col + 1)).2) from by
          simp [takeRunAcross, hc, hb]]
        rw [ih (col + 1) (by omega)]
        rw [runWordAcross_step g row col hc hb, runLenAcross_step g row col hc hb]
        simp only [Prod.mk.injEq]
        exact ⟨trivial, by omega⟩
      | true =>
        rw [show takeRunAcross g row (f + 1) col = ([], col) from by
          simp [takeRunAcross, hc, hb]]
        unfold runWordAcross
        rw [runLenAcross_of_black g row col hc hb]
        rfl
    · rw [show takeRunAcross g row (f + 1) col = ([], col) from by
        simp [takeRunAcross, hc]]
      unfold runWordAcross
      rw [runLenAcross_of_ge g row col (by omega)]
      rfl

/-- Helper: the outer across loop, entered at a column that is 0, out of
range, preceded by black, or itself black, produces exactly the runs
starting at run-start cells from that column on. -/
theorem scanRowAcross_eq (g : Grid) (row : Nat) :
    ∀ fuel col, GRID_SIZE - col ≤ fuel →
      (col = 0 ∨ GRID_SIZE ≤ col ∨ (g row (col - 1)).isBlack = true
        ∨ (g row col).isBlack = true) →
      scanRowAcross g row fuel col
        = (List.range' col (GRID_SIZE - col)).filterMap (fun c =>
            if isRunStartAcross g row c then some (c, runWordAcross g row c)
            else none) := by
  intro fuel
  induction fuel with
  | zero =>
    intro col h hinv
    have : GRID_SIZE - col = 0 := by omega
    rw [this]
    rfl
  | succ f ih =>
    intro col h hinv
    by_cases hc : col < GRID_SIZE
    · have hsplit : GRID_SIZE - col = (GRID_SIZE - (col + 1)) + 1 := by
        omega
      cases hb : (g row col).isBlack with
      | true =>
        rw [show scanRowAcross g row (f + 1) col = scanRowAcross g row f (col + 1) from by
          simp [scanRowAcross, hc, hb]]
        rw [ih (col + 1) (by omega) (Or.inr (Or.inr (Or.inl (by simpa using hb))))]
        rw [hsplit, List.range'_succ,
          List.filterMap_cons_none (by simp [isRunStartAcross, hb])]
      | false =>
        have htake := takeRunAcross_eq g row (GRID_SIZE - col) col (le_refl _)
        rw [show scanRowAcross g row (f + 1) col
            = (col, (takeRunAcross g row (GRID_SIZE - col) col).1)
              :: scanRowAcross g row f (takeRunAcross g row (GRID_SIZE - col) col).2 from by
          simp [scanRowAcross, hc, hb]]
        rw [htake]
        have hrl_pos : 0 < runLenAcross g row col := by
          rw [runLenAcross_step g row col hc hb]
          omega
        have hrl_le : runLenAcross g row col ≤ GRID_SIZE - col := runLenAcross_le g row col
        have hend := runLenAcross_end g row (GRID_SIZE - col) col (le_refl _)
        have hinv' : col + runLenAcross g row col = 0
            ∨ GRID_SIZE ≤ col + runLenAcross g row col
            ∨ (g row (col + runLenAcross g row col - 1)).isBlack = true
            ∨ (g row (col + runLenAcross g row col)).isBlack = true := by
          rcases hend with h15 | hbl
          · exact Or.inr (Or.inl h15)
          · exact Or.inr (Or.inr (Or.inr hbl))
        rw [ih (col + runLenAcross g row col) (by omega) hinv']
        have hstart : isRunStartAcross g row col = true := by
          rcases hinv with h0 | h15 | hprev | hblackc
          · subst h0
            simp [isRunStartAcross, hc, hb]
          · omega
          · simp [isRunStartAcross, hc, hb, hprev]
          · rw [hb] at hblackc
            exact absurd hblackc (by simp)
        rw [hsplit, List.range'_succ,
          List.filterMap_cons_some (b := (col, runWordAcross g row col)) (by simp [hstart])]
        congr 1
        have hlen : GRID_SIZE - (col + 1)
            = (runLenAcross g row col - 1) + (GRID_SIZE - (col + runLenAcross g row col)) := by
          omega
        rw [hlen, range'_split, List.filterMap_append]
        have hmid : (List.range' (col + 1) (runLenAcross g row col - 1)).filterMap
            (fun c => if isRunStartAcross g row c then some (c, runWordAcross g row c)
              else none) = [] := by
          apply List.filterMap_eq_nil_iff.mpr
          intro a ha
          rw [List.mem_range'_1] at ha
          have h1 : (g row (a - 1)).isBlack = false := by
            have hi := runLenAcross_inside g row (a - 1 - col) col (by omega)
            have harr : col + (a - 1 - col) = a - 1 := by omega
            rwa [harr] at hi
          have h0 : (a == 0) = false := by
            simp only [beq_eq_false_iff_ne, ne_eq]
            omega
          have hafalse : isRunStartAcross g row a = false := by
            simp [isRunStartAcross, h1, h0]
          simp [hafalse]
        rw [hmid]
        simp only [List.nil_append]
        have harith : col + 1 + (runLenAcross g row col - 1)
            = col + runLenAcross g row col := by omega
        rw [harith]
    · rw [show scanRowAcross g row (f + 1) col = [] from by simp [scanRowAcross, hc]]
      have : GRID_SIZE - col = 0 := by
        simp only [GRID_SIZE] at hc ⊢
        omega
      rw [this]
      rfl

/-- Helper: restatement of `calculateNumberedCells` as consecutive
numbering of the spec's start cells. -/
theorem calculateNumberedCells_eq (g : Grid) :
    calculateNumberedCells g
      = enumFrom 1 (rowMajorCells.filter (fun p => startsSlotSpec g p.1 p.2)) :=
  numberedAux_eq g rowMajorCells 1

/-- Helper: every numbered cell produced by `enumFrom` comes from the
underlying coordinate list, with a number at least the start value. -/
theorem mem_enumFrom (l : List (Nat × Nat)) :
    ∀ n nc, nc ∈ enumFrom n l → (nc.row, nc.col) ∈ l ∧ n ≤ nc.number := by
  induction l with
  | nil =>
    intro n nc h
    exact absurd h (List.not_mem_nil nc)
  | cons a rest ih =>
    intro n nc h
    rw [show enumFrom n (a :: rest)
        = { row := a.1, col := a.2, number := n } :: enumFrom (n + 1) rest from rfl] at h
    rcases List.mem_cons.mp h with h1 | h2
    · subst h1
      refine ⟨?_, le_refl n⟩
      show (a.1, a.2) ∈ a :: rest
      rw [Prod.mk.eta]
      exact List.mem_cons_self a rest
    · obtain ⟨hmem, hle⟩ := ih (n + 1) nc h2
      exact ⟨List.mem_cons_of_mem a hmem, by omega⟩

/-- Helper: conversely, every listed coordinate appears among the numbered
cells produced by `enumFrom`. -/
theorem enumFrom_mem_of_mem (l : List (Nat × Nat)) :
    ∀ n row col, (row, col) ∈ l →
      ∃ nc ∈ enumFrom n l, nc.row = row ∧ nc.col = col ∧ n ≤ nc.number := by
  induction l with
  | nil =>
    intro n row col h
    exact absurd h (List.not_mem_nil _)
  | cons a rest ih =>
    intro n row col h
    rcases List.mem_cons.mp h with h1 | h2
    · refine ⟨{ row := a.1, col := a.2, number := n }, List.mem_cons_self _ _, ?_, ?_, le_refl n⟩
      · rw [← h1]
      · rw [← h1]
    · obtain ⟨nc, hmem, h3, h4, h5⟩ := ih (n + 1) row col h2
      exact ⟨nc, List.mem_cons_of_mem _ hmem, h3, h4, by omega⟩

/-- Helper: the number map lookup succeeds, with a number at least the
start value, for every listed coordinate. -/
theorem numberLookup_enumFrom (l : List (Nat × Nat)) :
    ∀ n row col, (row, col) ∈ l →
      ∃ m, numberLookup (enumFrom n l) row col = some m ∧ n ≤ m := by
  induction l with
  | nil =>
    intro n row col h
    exact absurd h (List.not_mem_nil _)
  | cons a rest ih =>
    intro n row col h
    obtain ⟨a1, a2⟩ := a
    unfold numberLookup
    rw [show enumFrom n ((a1, a2) :: rest)
        = { row := a1, col := a2, number := n } :: enumFrom (n + 1) rest from rfl]
    rw [List.reverse_cons, List.find?_append]
    by_cases hmem : (row, col) ∈ rest
    · obtain ⟨m, hm, hle⟩ := ih (n + 1) row col hmem
      unfold numberLookup at hm
      cases hfind : (enumFrom (n + 1) rest).reverse.find?
          (fun nc => nc.row == row && nc.col == col) with
      | none =>
        rw [hfind] at hm
        simp at hm
      | some nc =>
        rw [hfind] at hm
        simp only [Option.map_some'] at hm
        refine ⟨nc.number, rfl, ?_⟩
        have : nc.number = m := Option.some.inj hm
        omega
    · have ha : row = a1 ∧ col = a2 := by
        rcases List.mem_cons.mp h with h1 | h2
        · exact ⟨congrArg Prod.fst h1, congrArg Prod.snd h1⟩
        · exact absurd h2 hmem
      have hnone : (enumFrom (n + 1) rest).reverse.find?
          (fun nc => nc.row == row && nc.col == col) = none := by
        apply List.find?_eq_none.mpr
        intro nc hnc hpred
        have hmm := (mem_enumFrom rest (n + 1) nc (List.mem_reverse.mp hnc)).1
        simp only [Bool.and_eq_true, beq_iff_eq] at hpred
        apply hmem
        rw [← hpred.1, ← hpred.2]
        exact hmm
      rw [hnone]
      have hfound : ([({ row := a1, col := a2, number := n } : NumberedCell)].find?
          (fun nc => nc.row == row && nc.col == col))
          = some { row := a1, col := a2, number := n } := by
        apply List.find?_cons_of_pos
        simp [ha.1, ha.2]
      rw [hfound]
      exact ⟨n, rfl, le_refl n⟩

/-- Helper: membership in the row-major coordinate list is exactly being
in range. -/
theorem mem_rowMajorCells (row col : Nat) :
    (row, col) ∈ rowMajorCells ↔ row < GRID_SIZE ∧ col < GRID_SIZE := by
  unfold rowMajorCells
  constructor
  · intro h
    obtain ⟨r, hr, hmem⟩ := List.mem_flatMap.mp h
    obtain ⟨c, hc, heq⟩ := List.mem_map.mp hmem
    have e1 : r = row := congrArg Prod.fst heq
    have e2 : c = col := congrArg Prod.snd heq
    subst e1
    subst e2
    exact ⟨List.mem_range.mp hr, List.mem_range.mp hc⟩
  · rintro ⟨h1, h2⟩
    exact List.mem_flatMap.mpr
      ⟨row, List.mem_range.mpr h1, List.mem_map.mpr ⟨col, List.mem_range.mpr h2, rfl⟩⟩

/-- Helper: an across run start of length at least 2 satisfies the spec's
slot-start rule. -/
theorem startsSlot_of_runStartAcross (g : Grid) (row col : Nat)
    (hstart : isRunStartAcross g row col = true)
    (hlen : 2 ≤ runLenAcross g row col) :
    startsSlotSpec g row col = true := by
  simp only [isRunStartAcross, Bool.and_eq_true, decide_eq_true_eq,
    Bool.not_eq_true'] at hstart
  obtain ⟨⟨hc, hnb⟩, hedge⟩ := hstart
  have hnb1 : (g row (col + 1)).isBlack = false := by
    have := runLenAcross_inside g row 1 col (by omega)
    exact this
  have hc1 : col + 1 < GRID_SIZE := by
    have := runLenAcross_le g row col
    omega
  simp [startsSlotSpec, hnb, hnb1, hedge, hc1]

/-- Helper: a down run start of length at least 2 satisfies the spec's
slot-start rule. -/
theorem startsSlot_of_runStartDown (g : Grid) (row col : Nat)
    (hstart : isRunStartDown g row col = true)
    (hlen : 2 ≤ runLenDown g row col) :
    startsSlotSpec g row col = true := by
  simp only [isRunStartDown, Bool.and_eq_true, decide_eq_true_eq,
    Bool.not_eq_true'] at hstart
  obtain ⟨⟨hr, hnb⟩, hedge⟩ := hstart
  have hlen' : 2 ≤ runLenAcross (transposeGrid g) col row := by
    rw [← (down_defs_transpose g row col).1]
    exact hlen
  have hnb1 : (g (row + 1) col).isBlack = false := by
    have := runLenAcross_inside (transposeGrid g) col 1 row (by omega)
    exact this
  have hr1 : row + 1 < GRID_SIZE := by
    have := runLenAcross_le (transposeGrid g) col row
    rw [← (down_defs_transpose g row col).1] at this
    omega
  simp [startsSlotSpec, hnb, hnb1, hedge, hr1]

/-- Helper: the numbering lookup succeeds with a positive number at every
cell satisfying the spec's slot-start rule. -/
theorem numberLookup_of_startsSlot (g : Grid) (row col : Nat)
    (hrow : row < GRID_SIZE) (hcol : col < GRID_SIZE)
    (hs : startsSlotSpec g row col = true) :
    ∃ m, numberLookup (calculateNumberedCells g) row col = some m ∧ 1 ≤ m := by
  rw [calculateNumberedCells_eq]
  apply numberLookup_enumFrom
  apply List.mem_filter.mpr
  exact ⟨(mem_rowMajorCells row col).mpr ⟨hrow, hcol⟩, hs⟩

/-- Helper: vertical run length is horizontal run length on the transpose. -/
theorem runLenDown_eq_transpose (g : Grid) (row col : Nat) :
    runLenDown g row col = runLenAcross (transposeGrid g) col row := rfl

/-- Helper: vertical run word is horizontal run word on the transpose. -/
theorem runWordDown_eq_transpose (g : Grid) (row col : Nat) :
    runWordDown g row col = runWordAcross (transposeGrid g) col row := rfl

/-- Helper: vertical run start is horizontal run start on the transpose. -/
theorem isRunStartDown_eq_transpose (g : Grid) (row col : Nat) :
    isRunStartDown g row col = isRunStartAcross (transposeGrid g) col row := rfl

/-- Helper: the inner down loop is the inner across loop on the transpose. -/
theorem takeRunDown_transpose (g : Grid) (col : Nat) :
    ∀ fuel row, takeRunDown g col fuel row
      = takeRunAcross (transposeGrid g) col fuel row := by
  intro fuel
  induction fuel with
  | zero => intro row; rfl
  | succ f ih =>
    intro row
    simp only [takeRunDown, takeRunAcross, ih]
    rfl

/-- Helper: the outer down loop is the outer across loop on the transpose. -/
theorem scanColDown_transpose (g : Grid) (col : Nat) :
    ∀ fuel row, scanColDown g col fuel row
      = scanRowAcross (transposeGrid g) col fuel row := by
  intro fuel
  induction fuel with
  | zero => intro row; rfl
  | succ f ih =>
    intro row
    simp only [scanColDown, scanRowAcross, ih, takeRunDown_transpose]
    rfl

/-- The across entry list the claim describes: one entry per maximal
horizontal run of length at least 2, carrying the run's word, start
coordinates and the start cell's number. -/
def acrossSpecList (g : Grid) : List WordEntry :=
  (List.range GRID_SIZE).flatMap (fun row =>
    (List.range GRID_SIZE).filterMap (fun col =>
      if isRunStartAcross g row col && decide (2 ≤ runLenAcross g row col) then
        some { number := numberOf g row col, word := String.mk (runWordAcross g row col),
               row := row, col := col, direction := Direction.across }
      else none))

/-- The down entry list the claim describes: one entry per maximal vertical
run of length at least 2. -/
def downSpecList (g : Grid) : List WordEntry :=
  (List.range GRID_SIZE).flatMap (fun col =>
    (List.range GRID_SIZE).filterMap (fun row =>
      if isRunStartDown g row col && decide (2 ≤ runLenDown g row col) then
        some { number := numberOf g row col, word := String.mk (runWordDown g row col),
               row := row, col := col, direction := Direction.down }
      else none))

/-- Helper: the across half of `extractWords` on the grid's own numbering
produces exactly the claim's across entry list. -/
theorem acrossEntries_eq (g : Grid) :
    acrossEntries g (calculateNumberedCells g) = acrossSpecList g := by
  unfold acrossEntries acrossSpecList
  rw [List.flatMap_def, List.flatMap_def]
  congr 1
  apply List.map_congr_left
  intro row hrow
  rw [List.mem_range] at hrow
  rw [scanRowAcross_eq g row GRID_SIZE 0 (by simp) (Or.inl rfl)]
  rw [show GRID_SIZE - 0 = GRID_SIZE from rfl, ← List.range_eq_range']
  rw [List.filterMap_filterMap]
  apply List.filterMap_congr
  intro col hcol
  rw [List.mem_range] at hcol
  by_cases hstart : isRunStartAcross g row col
  · have hwl : (runWordAcross g row col).length = runLenAcross g row col := by
      unfold runWordAcross
      rw [List.length_map, List.length_range']
    by_cases hlen : 2 ≤ runLenAcross g row col
    · obtain ⟨m, hm, hm1⟩ := numberLookup_of_startsSlot g row col hrow hcol
        (startsSlot_of_runStartAcross g row col hstart hlen)
      have hnum : numberOf g row col = m := by
        unfold numberOf
        rw [hm]
        rfl
      have hm0 : m ≠ 0 := by omega
      simp [hstart, hlen, hwl, hm, hnum, hm0]
    · simp [hstart, hlen, hwl]
  · simp [hstart]

/-- Helper: the down half of `extractWords` on the grid's own numbering
produces exactly the claim's down entry list. -/
theorem downEntries_eq (g : Grid) :
    downEntries g (calculateNumberedCells g) = downSpecList g := by
  unfold downEntries downSpecList
  rw [List.flatMap_def, List.flatMap_def]
  congr 1
  apply List.map_congr_left
  intro col hcol
  rw [List.mem_range] at hcol
  rw [scanColDown_transpose g col GRID_SIZE 0]
  rw [scanRowAcross_eq (transposeGrid g) col GRID_SIZE 0 (by simp) (Or.inl rfl)]
  rw [show GRID_SIZE - 0 = GRID_SIZE from rfl, ← List.range_eq_range']
  rw [List.filterMap_filterMap]
  apply List.filterMap_congr
  intro row hrow
  rw [List.mem_range] at hrow
  simp only [isRunStartDown_eq_transpose, runLenDown_eq_transpose,
    runWordDown_eq_transpose]
  by_cases hstart : isRunStartAcross (transposeGrid g) col row
  · have hwl : (runWordAcross (transposeGrid g) col row).length
        = runLenAcross (transposeGrid g) col row := by
      unfold runWordAcross
      rw [List.length_map, List.length_range']
    by_cases hlen : 2 ≤ runLenAcross (transposeGrid g) col row
    · obtain ⟨m, hm, hm1⟩ := numberLookup_of_startsSlot g row col hrow hcol
        (startsSlot_of_runStartDown g row col
          (by rw [isRunStartDown_eq_transpose]; exact hstart)
          (by rw [runLenDown_eq_transpose]; exact hlen))
      have hnum : numberOf g row col = m := by
        unfold numberOf
        rw [hm]
        rfl
      have hm0 : m ≠ 0 := by omega
      simp [hstart, hlen, hwl, hm, hnum, hm0]
    · simp [hstart, hlen, hwl]
  · simp [hstart]

/-- C2: on the grid's own numbering, `extractWords` returns exactly one
across entry per maximal horizontal run of length at least 2 and one down
entry per maximal vertical run of length at least 2, each entry's word
being the run's letters with '_' for blanks, with the run's start
coordinates and the start cell's number. -/
theorem extract_words_runs (g : Grid) :
    extractWords g (calculateNumberedCells g) = (acrossSpecList g, downSpecList g) := by
  unfold extractWords
  rw [acrossEntries_eq, downEntries_eq]

/-- C10: the start cell of every maximal run of length at least 2, across
or down, receives a number from `calculateNumberedCells`; consequently the
number lookup inside `extractWords` succeeds there and the run appears in
the corresponding word list. -/
theorem run_starts_always_numbered (g : Grid) (row col : Nat)
    (hrow : row < GRID_SIZE) (hcol : col < GRID_SIZE) :
    (isRunStartAcross g row col = true → 2 ≤ runLenAcross g row col →
      (∃ nc ∈ calculateNumberedCells g, nc.row = row ∧ nc.col = col)
      ∧ (∃ m, numberLookup (calculateNumberedCells g) row col = some m ∧ 1 ≤ m)
      ∧ ∃ e ∈ (extractWords g (calculateNumberedCells g)).1, e.row = row ∧ e.col = col)
    ∧ (isRunStartDown g row col = true → 2 ≤ runLenDown g row col →
      (∃ nc ∈ calculateNumberedCells g, nc.row = row ∧ nc.col = col)
      ∧ (∃ m, numberLookup (calculateNumberedCells g) row col = some m ∧ 1 ≤ m)
      ∧ ∃ e ∈ (extractWords g (calculateNumberedCells g)).2, e.row = row ∧ e.col = col) := by
  constructor
  · intro hstart hlen
    have hslot := startsSlot_of_runStartAcross g row col hstart hlen
    have hfil : (row, col) ∈ rowMajorCells.filter (fun p => startsSlotSpec g p.1 p.2) :=
      List.mem_filter.mpr ⟨(mem_rowMajorCells row col).mpr ⟨hrow, hcol⟩, hslot⟩
    refine ⟨?_, numberLookup_of_startsSlot g row col hrow hcol hslot, ?_⟩
    · obtain ⟨nc, hnc, e1, e2, _⟩ := enumFrom_mem_of_mem _ 1 row col hfil
      refine ⟨nc, ?_, e1, e2⟩
      rw [calculateNumberedCells_eq]
      exact hnc
    · refine ⟨⟨numberOf g row col, String.mk (runWordAcross g row col),
          row, col, Direction.across⟩, ?_, rfl, rfl⟩
      show _ ∈ acrossEntries g (calculateNumberedCells g)
      rw [acrossEntries_eq]
      apply List.mem_flatMap.mpr
      refine ⟨row, List.mem_range.mpr hrow, ?_⟩
      apply List.mem_filterMap.mpr
      refine ⟨col, List.mem_range.mpr hcol, ?_⟩
      rw [if_pos (by simp [hstart, hlen])]
  · intro hstart hlen
    have hslot := startsSlot_of_runStartDown g row col hstart hlen
    have hfil : (row, col) ∈ rowMajorCells.filter (fun p => startsSlotSpec g p.1 p.2) :=
      List.mem_filter.mpr ⟨(mem_rowMajorCells row col).mpr ⟨hrow, hcol⟩, hslot⟩
    refine ⟨?_, numberLookup_of_startsSlot g row col hrow hcol hslot, ?_⟩
    · obtain ⟨nc, hnc, e1, e2, _⟩ := enumFrom_mem_of_mem _ 1 row col hfil
      refine ⟨nc, ?_, e1, e2⟩
      rw [calculateNumberedCells_eq]
      exact hnc
    · refine ⟨⟨numberOf g row col, String.mk (runWordDown g row col),
          row, col, Direction.down⟩, ?_, rfl, rfl⟩
      show _ ∈ downEntries g (calculateNumberedCells g)
      rw [downEntries_eq]
      apply List.mem_flatMap.mpr
      refine ⟨col, List.mem_range.mpr hcol, ?_⟩
      apply List.mem_filterMap.mpr
      refine ⟨row, List.mem_range.mpr hrow, ?_⟩
      rw [if_pos (by simp [hstart, hlen])]

/-- Witness for `run_starts_always_numbered`: on the empty grid, cell
(0, 0) starts an across run of length 15 and the number lookup there
succeeds. -/
theorem run_starts_always_numbered_witness :
    (numberLookup (calculateNumberedCells createEmptyGrid) 0 0).isSome = true := by
  obtain ⟨m, hm, _⟩ :=
    ((run_starts_always_numbered createEmptyGrid 0 0 (by decide) (by decide)).1
      (by decide) (by decide)).2.1
  rw [hm]
  rfl
